import Mathlib

/-!
# Tic-tac-toe board (`JogoDaVelha`) — shallow embedding of `src/src/main.cpp`

The C++ class `JogoDaVelha` owns a 3×3 grid of `char`, the turn marker
`jogador_atual`, the termination flag `jogo_terminado` and the result
`vencedor`.  Its only mutating operation is `fazer_jogada`, whose body runs
under `mutex_tabuleiro` after the condition-variable wait
`jogador_atual == jogador || jogo_terminado` has been satisfied.

The embedding is sequential: one call of `fazer_jogada` is one atomic step on
the state.  A call whose wait predicate is false in the current state does not
proceed (`Falha.bloqueada`).  Console output (`mostrar_tabuleiro`) and the
wake-up broadcast (`notify_all`) do not touch the four fields and are left out.

The source never tests `linha` and `coluna` against the grid: on a running
game it indexes `std::array` with them unchecked.  With both in `0..2` that is
the cell access modelled here.  With one of them outside `0..2` the access
reads, and may write, whatever lies at that offset in memory (another cell,
another member, or nothing mapped), which depends on the layout of the object
and is not part of this model.  Such a call is given no result
(`Falha.fora_dos_limites`); the value marks the limit of the model and is not a
rejection or an abort by the program.  Nothing is stated here about what those
calls do.
-/

/-- One row of the grid, `std::array<char, 3>`. -/
structure Linha where
  c0 : Char
  c1 : Char
  c2 : Char
deriving DecidableEq, Repr

/-- The grid, `std::array<std::array<char, 3>, 3>`. -/
structure Tabuleiro where
  l0 : Linha
  l1 : Linha
  l2 : Linha
deriving DecidableEq, Repr

/-- Read of `linha[j]`. -/
def Linha.get (l : Linha) (j : Fin 3) : Char :=
  match j with
  | ⟨0, _⟩ => l.c0
  | ⟨1, _⟩ => l.c1
  | ⟨_ + 2, _⟩ => l.c2

/-- Write `linha[j] = v`. -/
def Linha.set (l : Linha) (j : Fin 3) (v : Char) : Linha :=
  match j with
  | ⟨0, _⟩ => { l with c0 := v }
  | ⟨1, _⟩ => { l with c1 := v }
  | ⟨_ + 2, _⟩ => { l with c2 := v }

/-- The cells of a row in iteration order. -/
def Linha.celulas (l : Linha) : List Char := [l.c0, l.c1, l.c2]

/-- Read of `tabuleiro[i]`. -/
def Tabuleiro.linha (t : Tabuleiro) (i : Fin 3) : Linha :=
  match i with
  | ⟨0, _⟩ => t.l0
  | ⟨1, _⟩ => t.l1
  | ⟨_ + 2, _⟩ => t.l2

/-- Read of `tabuleiro[i][j]`. -/
def Tabuleiro.get (t : Tabuleiro) (i j : Fin 3) : Char := (t.linha i).get j

/-- Write `tabuleiro[i][j] = v`. -/
def Tabuleiro.set (t : Tabuleiro) (i j : Fin 3) (v : Char) : Tabuleiro :=
  match i with
  | ⟨0, _⟩ => { t with l0 := t.l0.set j v }
  | ⟨1, _⟩ => { t with l1 := t.l1.set j v }
  | ⟨_ + 2, _⟩ => { t with l2 := t.l2.set j v }

/-- The rows of the grid in iteration order. -/
def Tabuleiro.linhas (t : Tabuleiro) : List Linha := [t.l0, t.l1, t.l2]

/-- Number of cells holding `' '`. -/
def Tabuleiro.vazias (t : Tabuleiro) : Nat :=
  (t.linhas.map fun l => l.celulas.count ' ').sum

/-- The fields of the C++ class `JogoDaVelha` (mutex and condition variable
carry no data). -/
structure JogoDaVelha where
  tabuleiro : Tabuleiro
  jogador_atual : Char
  jogo_terminado : Bool
  vencedor : Char
deriving DecidableEq, Repr

/-- Ways in which a call of `fazer_jogada` yields no return value. -/
inductive Falha where
  /-- The wait predicate is false: the caller stays suspended in this state. -/
  | bloqueada
  /-- The grid access is reached with an index outside `0..2`.  The source does
  not test the range, and the effect of the unchecked access is outside this
  model: the call has no result here. -/
  | fora_dos_limites
deriving DecidableEq, Repr

deriving instance DecidableEq for Except

/-- A C++ `int` index as a valid grid index, when it is one. -/
def indice (i : Int) : Option (Fin 3) :=
  if h : 0 ≤ i ∧ i < 3 then some ⟨i.toNat, by omega⟩ else none

namespace JogoDaVelha

/-- The constructor: empty grid, turn `'X'`, not finished, `vencedor = ' '`. -/
def novo : JogoDaVelha :=
  { tabuleiro := ⟨⟨' ', ' ', ' '⟩, ⟨' ', ' ', ' '⟩, ⟨' ', ' ', ' '⟩⟩
    jogador_atual := 'X'
    jogo_terminado := false
    vencedor := ' ' }

/-- The method `verificar_vitoria`: rows and columns in one loop over `i`, then
the two diagonals. -/
def verificar_vitoria (s : JogoDaVelha) (jogador : Char) : Bool :=
  let t := s.tabuleiro
  if ([0, 1, 2] : List (Fin 3)).any fun i =>
      (t.get i 0 == jogador && t.get i 1 == jogador && t.get i 2 == jogador) ||
      (t.get 0 i == jogador && t.get 1 i == jogador && t.get 2 i == jogador) then
    true
  else if (t.get 0 0 == jogador && t.get 1 1 == jogador && t.get 2 2 == jogador) ||
      (t.get 0 2 == jogador && t.get 1 1 == jogador && t.get 2 0 == jogador) then
    true
  else
    false

/-- The method `verificar_empate`: false at the first `' '` cell, true when the
scan finds none. -/
def verificar_empate (s : JogoDaVelha) : Bool :=
  s.tabuleiro.linhas.all fun linha => linha.celulas.all fun celula => !(celula == ' ')

/-- The predicate of `cv_turno.wait`. -/
def predicado_espera (s : JogoDaVelha) (jogador : Char) : Bool :=
  s.jogador_atual == jogador || s.jogo_terminado

/-- The method `fazer_jogada`: the return value and the state it leaves.  The
last branch is not a test made by the source: it is where the unchecked
`tabuleiro[linha][coluna]` leaves the grid and the model stops. -/
def fazer_jogada (s : JogoDaVelha) (jogador : Char) (linha coluna : Int) :
    Except Falha (Bool × JogoDaVelha) :=
  if !predicado_espera s jogador then
    .error .bloqueada
  else if s.jogo_terminado then
    .ok (false, s)
  else
    match indice linha, indice coluna with
    | some i, some j =>
      if s.tabuleiro.get i j == ' ' then
        let s1 := { s with tabuleiro := s.tabuleiro.set i j jogador }
        if verificar_vitoria s1 jogador then
          .ok (true, { s1 with jogo_terminado := true, vencedor := jogador })
        else if verificar_empate s1 then
          .ok (true, { s1 with jogo_terminado := true, vencedor := 'E' })
        else
          .ok (true, { s1 with jogador_atual := if jogador == 'X' then 'O' else 'X' })
      else
        .ok (false, s)
    | _, _ => .error .fora_dos_limites

/-- The method `jogo_acabou`. -/
def jogo_acabou (s : JogoDaVelha) : Bool := s.jogo_terminado

/-- The method `obter_vencedor`. -/
def obter_vencedor (s : JogoDaVelha) : Char := s.vencedor

end JogoDaVelha

open JogoDaVelha

/-! ## Specification vocabulary -/

/-- Three `S` values along some row, some column or one of the two diagonals. -/
def tem_trinca (t : Tabuleiro) (S : Char) : Prop :=
  (∃ i : Fin 3, ∀ j : Fin 3, t.get i j = S) ∨
  (∃ j : Fin 3, ∀ i : Fin 3, t.get i j = S) ∨
  (t.get 0 0 = S ∧ t.get 1 1 = S ∧ t.get 2 2 = S) ∨
  (t.get 0 2 = S ∧ t.get 1 1 = S ∧ t.get 2 0 = S)

instance (t : Tabuleiro) (S : Char) : Decidable (tem_trinca t S) := by
  unfold tem_trinca; infer_instance

/-- All 9 cells are non-empty. -/
def cheio (t : Tabuleiro) : Prop := ∀ i j : Fin 3, t.get i j ≠ ' '

instance (t : Tabuleiro) : Decidable (cheio t) := by
  unfold cheio; infer_instance

/-- States the class can be in: the constructed board, and whatever a returning
call of `fazer_jogada` leaves. -/
inductive Alcancavel : JogoDaVelha → Prop where
  | inicio : Alcancavel novo
  | passo {s s' : JogoDaVelha} {jogador : Char} {linha coluna : Int} {b : Bool} :
      Alcancavel s → fazer_jogada s jogador linha coluna = .ok (b, s') → Alcancavel s'

/-- Call sequences from the constructed board, each call taken in a state where
it returns: `Execucao tr s` holds when the sequence leaves state `s` and `tr`
lists, in order, the symbols of the calls that returned `true`. -/
inductive Execucao : List Char → JogoDaVelha → Prop where
  | inicio : Execucao [] novo
  | aceita {tr : List Char} {s s' : JogoDaVelha} {jogador : Char} {linha coluna : Int} :
      Execucao tr s → fazer_jogada s jogador linha coluna = .ok (true, s') →
      Execucao (tr ++ [jogador]) s'
  | rejeitada {tr : List Char} {s s' : JogoDaVelha} {jogador : Char} {linha coluna : Int} :
      Execucao tr s → fazer_jogada s jogador linha coluna = .ok (false, s') →
      Execucao tr s'

/-- States a call sequence can lead to from `s0`, each call taken in a state
where it returns. -/
inductive Segue (s0 : JogoDaVelha) : JogoDaVelha → Prop where
  | inicio : Segue s0 s0
  | passo {s s' : JogoDaVelha} {jogador : Char} {linha coluna : Int} {b : Bool} :
      Segue s0 s → fazer_jogada s jogador linha coluna = .ok (b, s') → Segue s0 s'

/-- Runs a list of calls `(jogador, linha, coluna)` in order from state `s`,
appending to `tr` the symbol of each call that returns `true`; stops at the
first call that does not return. -/
def executar (tr : List Char) (s : JogoDaVelha) :
    List (Char × Int × Int) → Except Falha (List Char × JogoDaVelha)
  | [] => .ok (tr, s)
  | (jogador, linha, coluna) :: resto =>
    match fazer_jogada s jogador linha coluna with
    | .error e => .error e
    | .ok (true, s') => executar (tr ++ [jogador]) s' resto
    | .ok (false, s') => executar tr s' resto

/-- The cell at C++ `int` coordinates, when both are valid indices. -/
def Tabuleiro.celula (t : Tabuleiro) (linha coluna : Int) : Option Char :=
  match indice linha, indice coluna with
  | some i, some k => some (t.get i k)
  | _, _ => none

/-- A game in which `'X'` completes row 0 with its third move. -/
def partida_vitoria : List (Char × Int × Int) :=
  [('X', 0, 0), ('O', 1, 0), ('X', 0, 1), ('O', 1, 1), ('X', 0, 2)]

/-- The state `partida_vitoria` leaves. -/
def estado_vitoria : JogoDaVelha :=
  { tabuleiro := ⟨⟨'X', 'X', 'X'⟩, ⟨'O', 'O', ' '⟩, ⟨' ', ' ', ' '⟩⟩
    jogador_atual := 'X'
    jogo_terminado := true
    vencedor := 'X' }

/-- The state before the last move of `partida_vitoria`. -/
def estado_antes_vitoria : JogoDaVelha :=
  { tabuleiro := ⟨⟨'X', 'X', ' '⟩, ⟨'O', 'O', ' '⟩, ⟨' ', ' ', ' '⟩⟩
    jogador_atual := 'X'
    jogo_terminado := false
    vencedor := ' ' }

/-- A game of nine moves that fills the grid with no complete line. -/
def partida_empate : List (Char × Int × Int) :=
  [('X', 0, 0), ('O', 0, 1), ('X', 0, 2), ('O', 1, 1), ('X', 1, 0), ('O', 1, 2),
   ('X', 2, 1), ('O', 2, 0), ('X', 2, 2)]

/-- The state `partida_empate` leaves. -/
def estado_empate : JogoDaVelha :=
  { tabuleiro := ⟨⟨'X', 'O', 'X'⟩, ⟨'X', 'O', 'O'⟩, ⟨'O', 'X', 'X'⟩⟩
    jogador_atual := 'X'
    jogo_terminado := true
    vencedor := 'E' }

/-- The sequence `'X', 'O', 'X', 'O', ...` of length `n`: position `k` (from 0)
holds `'X'` when `k` is even and `'O'` when `k` is odd. -/
def alternada (n : Nat) : List Char :=
  (List.range n).map fun k => if k % 2 = 0 then 'X' else 'O'

/-- The state left by a move that wrote `jogador` at `(i, k)`, by branch. -/
def apos_escrita (s : JogoDaVelha) (jogador : Char) (i k : Fin 3) (s' : JogoDaVelha) : Prop :=
  (tem_trinca (s.tabuleiro.set i k jogador) jogador ∧
    s' = { tabuleiro := s.tabuleiro.set i k jogador, jogador_atual := s.jogador_atual,
           jogo_terminado := true, vencedor := jogador }) ∨
  (¬ tem_trinca (s.tabuleiro.set i k jogador) jogador ∧ cheio (s.tabuleiro.set i k jogador) ∧
    s' = { tabuleiro := s.tabuleiro.set i k jogador, jogador_atual := s.jogador_atual,
           jogo_terminado := true, vencedor := 'E' }) ∨
  (¬ tem_trinca (s.tabuleiro.set i k jogador) jogador ∧ ¬ cheio (s.tabuleiro.set i k jogador) ∧
    s' = { tabuleiro := s.tabuleiro.set i k jogador,
           jogador_atual := if jogador = 'X' then 'O' else 'X',
           jogo_terminado := false, vencedor := s.vencedor })

/-- What holds of every reachable state: the turn is `'X'` or `'O'`; while the
game runs nothing is decided, no line is complete and a cell is free; once it
is over `vencedor` names what the grid shows. -/
def Invariante (s : JogoDaVelha) : Prop :=
  (s.jogador_atual = 'X' ∨ s.jogador_atual = 'O') ∧
  (s.jogo_terminado = false →
    s.vencedor = ' ' ∧ ¬ tem_trinca s.tabuleiro 'X' ∧ ¬ tem_trinca s.tabuleiro 'O' ∧
      ¬ cheio s.tabuleiro) ∧
  (s.jogo_terminado = true →
    (s.vencedor = 'X' ∧ tem_trinca s.tabuleiro 'X' ∧ ¬ tem_trinca s.tabuleiro 'O') ∨
    (s.vencedor = 'O' ∧ tem_trinca s.tabuleiro 'O' ∧ ¬ tem_trinca s.tabuleiro 'X') ∨
    (s.vencedor = 'E' ∧ cheio s.tabuleiro ∧ ¬ tem_trinca s.tabuleiro 'X' ∧
      ¬ tem_trinca s.tabuleiro 'O'))

/-! ## The policies of `Jogador` -/

/-- One call a policy makes: the coordinates it passes to `fazer_jogada` and
what the call gives (`.error` when it does not return). -/
structure Tentativa where
  linha : Int
  coluna : Int
  retorno : Except Falha Bool
deriving DecidableEq

namespace Jogador

/-- The coordinates the nested loops of `jogar_sequencial` visit, in order:
`linha` from 0 to 2 outside, `coluna` from 0 to 2 inside. -/
def varredura : List (Int × Int) :=
  ([0, 1, 2] : List Int).flatMap fun linha =>
    ([0, 1, 2] : List Int).map fun coluna => (linha, coluna)

/-- The loop body of `jogar_sequencial` over the coordinates still to visit:
leave at the first call that returns `true`.  A call that does not return ends
the run of this actor.  Gives the calls made, in order, and the state left. -/
def jogar_sequencial_em (simbolo : Char) :
    List (Int × Int) → JogoDaVelha → List Tentativa × JogoDaVelha
  | [], s => ([], s)
  | (linha, coluna) :: resto, s =>
    match fazer_jogada s simbolo linha coluna with
    | .error e => ([⟨linha, coluna, .error e⟩], s)
    | .ok (true, s') => ([⟨linha, coluna, .ok true⟩], s')
    | .ok (false, s') =>
      let r := jogar_sequencial_em simbolo resto s'
      (⟨linha, coluna, .ok false⟩ :: r.1, r.2)

/-- The method `jogar_sequencial` of an actor with symbol `simbolo`. -/
def jogar_sequencial (simbolo : Char) (s : JogoDaVelha) : List Tentativa × JogoDaVelha :=
  jogar_sequencial_em simbolo varredura s

/-- The method `jogar_aleatorio` of an actor with symbol `simbolo`; `sorteios`
are the values successive `std::rand()` calls return, two per iteration, and
the run is followed for as long as they last.  `%` is C++ remainder
(truncating). -/
def jogar_aleatorio (simbolo : Char) :
    List Int → JogoDaVelha → List Tentativa × JogoDaVelha
  | r1 :: r2 :: resto, s =>
    if jogo_acabou s then
      ([], s)
    else
      let linha := Int.tmod r1 3
      let coluna := Int.tmod r2 3
      match fazer_jogada s simbolo linha coluna with
      | .error e => ([⟨linha, coluna, .error e⟩], s)
      | .ok (true, s') => ([⟨linha, coluna, .ok true⟩], s')
      | .ok (false, s') =>
        let r := jogar_aleatorio simbolo resto s'
        (⟨linha, coluna, .ok false⟩ :: r.1, r.2)
  | _, s => ([], s)

end Jogador

open Jogador

/-! ## More specification vocabulary -/

/-- The 8 fixed lines: 3 rows, 3 columns, 2 diagonals. -/
def oito_linhas : List ((Fin 3 × Fin 3) × (Fin 3 × Fin 3) × (Fin 3 × Fin 3)) :=
  [((0, 0), (0, 1), (0, 2)), ((1, 0), (1, 1), (1, 2)), ((2, 0), (2, 1), (2, 2)),
   ((0, 0), (1, 0), (2, 0)), ((0, 1), (1, 1), (2, 1)), ((0, 2), (1, 2), (2, 2)),
   ((0, 0), (1, 1), (2, 2)), ((0, 2), (1, 1), (2, 0))]

/-- The win check in the words of the specification: at least one of the 8
fixed lines consists of three equal, non-empty cells, all matching `jogador`. -/
def vitoria_referencia (t : Tabuleiro) (jogador : Char) : Bool :=
  oito_linhas.any fun l =>
    let a := t.get l.1.1 l.1.2
    let b := t.get l.2.1.1 l.2.1.2
    let c := t.get l.2.2.1 l.2.2.2
    (a == b && b == c) && (a != ' ' && b != ' ' && c != ' ') &&
      (a == jogador && b == jogador && c == jogador)

/-- The cells in row-major order. -/
def ordem_linha_maior : List (Fin 3 × Fin 3) :=
  [(0, 0), (0, 1), (0, 2), (1, 0), (1, 1), (1, 2), (2, 0), (2, 1), (2, 2)]

/-- The first empty cell in row-major order, if there is one. -/
def primeira_vazia (t : Tabuleiro) : Option (Fin 3 × Fin 3) :=
  ordem_linha_maior.find? fun p => t.get p.1 p.2 == ' '

/-- Number of cells holding `c`. -/
def Tabuleiro.conta (t : Tabuleiro) (c : Char) : Nat :=
  (t.linhas.map fun l => l.celulas.count c).sum

/-- A game of nine moves in which `'X'` completes row 0 with the last one. -/
def partida_cheia_vitoria : List (Char × Int × Int) :=
  [('X', 0, 0), ('O', 1, 0), ('X', 0, 1), ('O', 1, 1), ('X', 1, 2), ('O', 2, 0),
   ('X', 2, 1), ('O', 2, 2), ('X', 0, 2)]

/-- The state `partida_cheia_vitoria` leaves: a full grid won by `'X'`. -/
def estado_cheio_vitoria : JogoDaVelha :=
  { tabuleiro := ⟨⟨'X', 'X', 'X'⟩, ⟨'O', 'O', 'X'⟩, ⟨'O', 'X', 'O'⟩⟩
    jogador_atual := 'X'
    jogo_terminado := true
    vencedor := 'X' }

/-! ## Grid lemmas -/

theorem indice_some {i : Int} {k : Fin 3} (h : indice i = some k) : (k : Int) = i := by
  unfold indice at h
  split at h
  · simp only [Option.some.injEq] at h
    subst h
    simp only []
    omega
  · simp at h

theorem indice_of_range {i : Int} (h0 : 0 ≤ i) (h2 : i ≤ 2) : ∃ k : Fin 3, indice i = some k := by
  unfold indice
  rw [dif_pos ⟨h0, by omega⟩]
  exact ⟨_, rfl⟩

theorem Linha.get_apos_set (l : Linha) (j b : Fin 3) (v : Char) :
    (l.set j v).get b = if b = j then v else l.get b := by
  fin_cases j <;> fin_cases b <;> simp [Linha.set, Linha.get]

theorem Tabuleiro.linha_set (t : Tabuleiro) (i j a : Fin 3) (v : Char) :
    (t.set i j v).linha a = if a = i then (t.linha a).set j v else t.linha a := by
  fin_cases i <;> fin_cases a <;> simp [Tabuleiro.set, Tabuleiro.linha]

theorem Tabuleiro.get_set (t : Tabuleiro) (i j a b : Fin 3) (v : Char) :
    (t.set i j v).get a b = if a = i ∧ b = j then v else t.get a b := by
  unfold Tabuleiro.get
  rw [Tabuleiro.linha_set]
  by_cases ha : a = i
  · simp [ha, Linha.get_apos_set]
  · simp [ha]

theorem verificar_vitoria_iff (s : JogoDaVelha) (jogador : Char) :
    verificar_vitoria s jogador = true ↔ tem_trinca s.tabuleiro jogador := by
  rcases s with ⟨⟨⟨c00, c01, c02⟩, ⟨c10, c11, c12⟩, ⟨c20, c21, c22⟩⟩, ja, jt, v⟩
  simp [verificar_vitoria, tem_trinca, Fin.forall_fin_succ, Fin.exists_fin_succ,
    Tabuleiro.get, Tabuleiro.linha, Linha.get]
  constructor
  · rintro (((h | h) | (h | h) | (h | h)) | (h | h)) <;> simp [h]
  · rintro ((h | h | h) | (h | h | h) | (h | h)) <;> simp [h]

theorem verificar_empate_iff (s : JogoDaVelha) :
    verificar_empate s = true ↔ cheio s.tabuleiro := by
  rcases s with ⟨⟨⟨c00, c01, c02⟩, ⟨c10, c11, c12⟩, ⟨c20, c21, c22⟩⟩, ja, jt, v⟩
  simp [verificar_empate, cheio, Fin.forall_fin_succ, Tabuleiro.linhas, Linha.celulas,
    Tabuleiro.get, Tabuleiro.linha, Linha.get]

theorem tem_trinca_mono {t t' : Tabuleiro} {S : Char}
    (h : ∀ a b : Fin 3, t'.get a b = S → t.get a b = S) (ht : tem_trinca t' S) :
    tem_trinca t S := by
  rcases ht with ⟨i, hi⟩ | ⟨j, hj⟩ | ⟨h0, h1, h2⟩ | ⟨h0, h1, h2⟩
  · exact Or.inl ⟨i, fun j => h _ _ (hi j)⟩
  · exact Or.inr (Or.inl ⟨j, fun i => h _ _ (hj i)⟩)
  · exact Or.inr (Or.inr (Or.inl ⟨h _ _ h0, h _ _ h1, h _ _ h2⟩))
  · exact Or.inr (Or.inr (Or.inr ⟨h _ _ h0, h _ _ h1, h _ _ h2⟩))

/-- Writing `v` creates no three-in-a-row of a different symbol. -/
theorem tem_trinca_of_set {t : Tabuleiro} {i j : Fin 3} {v S : Char} (hS : S ≠ v)
    (ht : tem_trinca (t.set i j v) S) : tem_trinca t S := by
  refine tem_trinca_mono (fun a b hab => ?_) ht
  rw [Tabuleiro.get_set] at hab
  split at hab
  · exact absurd hab.symm hS
  · exact hab

theorem vazias_set {t : Tabuleiro} {i j : Fin 3} {v : Char} (he : t.get i j = ' ')
    (hv : v ≠ ' ') : (t.set i j v).vazias + 1 = t.vazias := by
  rcases t with ⟨⟨c00, c01, c02⟩, ⟨c10, c11, c12⟩, ⟨c20, c21, c22⟩⟩
  fin_cases i <;> fin_cases j <;>
    simp [Tabuleiro.get, Tabuleiro.linha, Linha.get] at he <;>
    subst he <;>
    simp [Tabuleiro.vazias, Tabuleiro.set, Linha.set, Tabuleiro.linhas, Linha.celulas,
      List.count_cons, hv] <;>
    omega

theorem cheio_of_vazias_zero {t : Tabuleiro} (h : t.vazias = 0) : cheio t := by
  rcases t with ⟨⟨c00, c01, c02⟩, ⟨c10, c11, c12⟩, ⟨c20, c21, c22⟩⟩
  simp [Tabuleiro.vazias, Tabuleiro.linhas, Linha.celulas, List.count_eq_zero] at h
  simp [cheio, Fin.forall_fin_succ, Tabuleiro.get, Tabuleiro.linha, Linha.get]
  tauto

/-! ## One call of `fazer_jogada` -/

/-- Case analysis of a returning call. -/
theorem fazer_jogada_ok {s s' : JogoDaVelha} {jogador : Char} {linha coluna : Int} {b : Bool}
    (h : fazer_jogada s jogador linha coluna = .ok (b, s')) :
    (s.jogo_terminado = true ∧ b = false ∧ s' = s) ∨
    (s.jogo_terminado = false ∧ s.jogador_atual = jogador ∧
      ∃ i k : Fin 3, indice linha = some i ∧ indice coluna = some k ∧
        ((s.tabuleiro.get i k ≠ ' ' ∧ b = false ∧ s' = s) ∨
         (s.tabuleiro.get i k = ' ' ∧ b = true ∧ apos_escrita s jogador i k s'))) := by
  unfold fazer_jogada at h
  split at h
  · exact absurd h (by simp)
  · rename_i hp
    split at h
    · rename_i ht
      simp only [Except.ok.injEq, Prod.mk.injEq] at h
      exact Or.inl ⟨ht, h.1.symm, h.2.symm⟩
    · rename_i ht
      have ht' : s.jogo_terminado = false := by simpa using ht
      have hj : s.jogador_atual = jogador := by
        simpa [predicado_espera, ht'] using hp
      refine Or.inr ⟨ht', hj, ?_⟩
      split at h
      · rename_i i k hi hk
        refine ⟨i, k, hi, hk, ?_⟩
        split at h
        · rename_i hc
          have hc' : s.tabuleiro.get i k = ' ' := by simpa using hc
          simp only [] at h
          split at h
          · rename_i hv
            simp only [Except.ok.injEq, Prod.mk.injEq] at h
            rw [verificar_vitoria_iff] at hv
            exact Or.inr ⟨hc', h.1.symm, Or.inl ⟨hv, h.2.symm⟩⟩
          · rename_i hv
            rw [verificar_vitoria_iff] at hv
            split at h
            · rename_i he
              simp only [Except.ok.injEq, Prod.mk.injEq] at h
              rw [verificar_empate_iff] at he
              exact Or.inr ⟨hc', h.1.symm, Or.inr (Or.inl ⟨hv, he, h.2.symm⟩)⟩
            · rename_i he
              simp only [Except.ok.injEq, Prod.mk.injEq] at h
              rw [verificar_empate_iff] at he
              refine Or.inr ⟨hc', h.1.symm, Or.inr (Or.inr ⟨hv, he, ?_⟩)⟩
              rw [← h.2]
              simp [ht']
        · rename_i hc
          have hc' : s.tabuleiro.get i k ≠ ' ' := by simpa using hc
          simp only [Except.ok.injEq, Prod.mk.injEq] at h
          exact Or.inl ⟨hc', h.1.symm, h.2.symm⟩
      · exact absurd h (by simp)

/-! ## The invariant of reachable states -/

theorem invariante_novo : Invariante novo := by
  refine ⟨Or.inl rfl, fun _ => ⟨rfl, ?_, ?_, ?_⟩, fun h => absurd h (by decide)⟩
  · decide
  · decide
  · decide

theorem invariante_passo {s s' : JogoDaVelha} {jogador : Char} {linha coluna : Int} {b : Bool}
    (hinv : Invariante s) (h : fazer_jogada s jogador linha coluna = .ok (b, s')) :
    Invariante s' := by
  rcases fazer_jogada_ok h with ⟨_, _, rfl⟩ | ⟨ht, hj, i, k, _, _, hcase⟩
  · exact hinv
  · rcases hcase with ⟨_, _, rfl⟩ | ⟨_, _, hw⟩
    · exact hinv
    · obtain ⟨hturn, hrun, _⟩ := hinv
      obtain ⟨hv, hnx, hno, _⟩ := hrun ht
      have hother : ∀ S : Char, S ≠ jogador → ¬ tem_trinca s.tabuleiro S →
          ¬ tem_trinca (s.tabuleiro.set i k jogador) S :=
        fun S hS hn ht => hn (tem_trinca_of_set hS ht)
      rw [hj] at hturn
      rcases hw with ⟨hwin, rfl⟩ | ⟨hnwin, hfull, rfl⟩ | ⟨hnwin, hnfull, rfl⟩
      · refine ⟨by rw [hj]; exact hturn, fun hc => absurd hc (by simp), fun _ => ?_⟩
        rcases hturn with rfl | rfl
        · exact Or.inl ⟨rfl, hwin, hother 'O' (by decide) hno⟩
        · exact Or.inr (Or.inl ⟨rfl, hwin, hother 'X' (by decide) hnx⟩)
      · refine ⟨by rw [hj]; exact hturn, fun hc => absurd hc (by simp), fun _ => ?_⟩
        refine Or.inr (Or.inr ⟨rfl, hfull, ?_, ?_⟩)
        · rcases hturn with rfl | rfl
          · exact hnwin
          · exact hother 'X' (by decide) hnx
        · rcases hturn with rfl | rfl
          · exact hother 'O' (by decide) hno
          · exact hnwin
      · refine ⟨?_, fun _ => ⟨hv, ?_, ?_, hnfull⟩, fun hc => absurd hc (by simp)⟩
        · rcases hturn with rfl | rfl
          · exact Or.inr (by simp)
          · exact Or.inl (by simp)
        · rcases hturn with rfl | rfl
          · exact hnwin
          · exact hother 'X' (by decide) hnx
        · rcases hturn with rfl | rfl
          · exact hother 'O' (by decide) hno
          · exact hnwin

theorem invariante_alcancavel {s : JogoDaVelha} (h : Alcancavel s) : Invariante s := by
  induction h with
  | inicio => exact invariante_novo
  | passo _ hstep ih => exact invariante_passo ih hstep

theorem alcancavel_of_execucao {tr : List Char} {s : JogoDaVelha} (h : Execucao tr s) :
    Alcancavel s := by
  induction h with
  | inicio => exact Alcancavel.inicio
  | aceita _ hstep ih => exact Alcancavel.passo ih hstep
  | rejeitada _ hstep ih => exact Alcancavel.passo ih hstep

theorem execucao_of_executar (calls : List (Char × Int × Int)) {tr tr' : List Char}
    {s s' : JogoDaVelha} (h : Execucao tr s) (hrun : executar tr s calls = .ok (tr', s')) :
    Execucao tr' s' := by
  induction calls generalizing tr s with
  | nil =>
    simp only [executar, Except.ok.injEq, Prod.mk.injEq] at hrun
    rw [← hrun.1, ← hrun.2]
    exact h
  | cons c resto ih =>
    obtain ⟨jogador, linha, coluna⟩ := c
    unfold executar at hrun
    split at hrun
    · exact absurd hrun (by simp)
    · rename_i s1 hstep
      exact ih (Execucao.aceita h hstep) hrun
    · rename_i s1 hstep
      exact ih (Execucao.rejeitada h hstep) hrun

theorem execucao_vitoria : Execucao ['X', 'O', 'X', 'O', 'X'] estado_vitoria :=
  execucao_of_executar partida_vitoria Execucao.inicio (by decide)

theorem execucao_antes_vitoria : Execucao ['X', 'O', 'X', 'O'] estado_antes_vitoria :=
  execucao_of_executar (partida_vitoria.take 4) Execucao.inicio (by decide)

theorem execucao_empate :
    Execucao ['X', 'O', 'X', 'O', 'X', 'O', 'X', 'O', 'X'] estado_empate :=
  execucao_of_executar partida_empate Execucao.inicio (by decide)

theorem rejeitada_eq {s s' : JogoDaVelha} {jogador : Char} {linha coluna : Int}
    (h : fazer_jogada s jogador linha coluna = .ok (false, s')) : s' = s := by
  rcases fazer_jogada_ok h with ⟨_, _, rfl⟩ | ⟨_, _, i, k, _, _, hcase⟩
  · rfl
  · rcases hcase with ⟨_, _, rfl⟩ | ⟨_, hb, _⟩
    · rfl
    · exact absurd hb (by decide)

theorem aceita_escrita {s s' : JogoDaVelha} {jogador : Char} {linha coluna : Int}
    (h : fazer_jogada s jogador linha coluna = .ok (true, s')) :
    s.jogo_terminado = false ∧ s.jogador_atual = jogador ∧
      ∃ i k : Fin 3, indice linha = some i ∧ indice coluna = some k ∧
        s.tabuleiro.get i k = ' ' ∧ apos_escrita s jogador i k s' := by
  rcases fazer_jogada_ok h with ⟨_, hb, _⟩ | ⟨ht, hj, i, k, hi, hk, hcase⟩
  · exact absurd hb (by decide)
  · rcases hcase with ⟨_, hb, _⟩ | ⟨he, _, hw⟩
    · exact absurd hb (by decide)
    · exact ⟨ht, hj, i, k, hi, hk, he, hw⟩

theorem apos_escrita_tabuleiro {s s' : JogoDaVelha} {jogador : Char} {i k : Fin 3}
    (h : apos_escrita s jogador i k s') : s'.tabuleiro = s.tabuleiro.set i k jogador := by
  rcases h with ⟨_, rfl⟩ | ⟨_, _, rfl⟩ | ⟨_, _, rfl⟩ <;> rfl

theorem vazias_aceita {s s' : JogoDaVelha} {jogador : Char} {linha coluna : Int}
    (hinv : Invariante s) (h : fazer_jogada s jogador linha coluna = .ok (true, s')) :
    s'.tabuleiro.vazias + 1 = s.tabuleiro.vazias := by
  obtain ⟨_, hj, i, k, _, _, he, hw⟩ := aceita_escrita h
  rw [apos_escrita_tabuleiro hw]
  refine vazias_set he ?_
  rcases hinv.1 with hx | ho
  · rw [← hj, hx]; decide
  · rw [← hj, ho]; decide

theorem execucao_vazias {tr : List Char} {s : JogoDaVelha} (h : Execucao tr s) :
    s.tabuleiro.vazias + tr.length = 9 := by
  induction h with
  | inicio => decide
  | aceita hprev hstep ih =>
    have := vazias_aceita (invariante_alcancavel (alcancavel_of_execucao hprev)) hstep
    simp only [List.length_append, List.length_singleton]
    omega
  | rejeitada _ hstep ih =>
    rw [rejeitada_eq hstep]
    exact ih

theorem alternada_succ (n : Nat) :
    alternada (n + 1) = alternada n ++ [if n % 2 = 0 then 'X' else 'O'] := by
  simp [alternada, List.range_succ]

theorem alternada_getElem? {n k : Nat} (h : k < n) :
    (alternada n)[k]? = some (if k % 2 = 0 then 'X' else 'O') := by
  simp [alternada, List.getElem?_range h]

theorem execucao_turno {tr : List Char} {s : JogoDaVelha} (h : Execucao tr s) :
    tr = alternada tr.length ∧
    (s.jogo_terminado = false →
      s.jogador_atual = if tr.length % 2 = 0 then 'X' else 'O') := by
  induction h with
  | inicio => exact ⟨rfl, fun _ => rfl⟩
  | @aceita tr s s' jogador linha coluna hprev hstep ih =>
    obtain ⟨ht, hj, i, k, _, _, _, hw⟩ := aceita_escrita hstep
    have hsym : jogador = if tr.length % 2 = 0 then 'X' else 'O' := by
      rw [← hj]; exact ih.2 ht
    have hlen : (tr ++ [jogador]).length = tr.length + 1 := by simp
    refine ⟨?_, fun hnt => ?_⟩
    · rw [hlen, alternada_succ, ← hsym, ← ih.1]
    · rw [hlen]
      rcases hw with ⟨_, rfl⟩ | ⟨_, _, rfl⟩ | ⟨_, _, rfl⟩
      · exact absurd hnt (by simp)
      · exact absurd hnt (by simp)
      · simp only []
        rcases Nat.mod_two_eq_zero_or_one tr.length with h0 | h1
        · have h2 : (tr.length + 1) % 2 = 1 := by omega
          rw [hsym, h0, h2]; decide
        · have h2 : (tr.length + 1) % 2 = 0 := by omega
          rw [hsym, h1, h2]; decide
  | rejeitada _ hstep ih =>
    rw [rejeitada_eq hstep]
    exact ih

theorem estado_vitoria_rejeita (jogador : Char) (linha coluna : Int) :
    fazer_jogada estado_vitoria jogador linha coluna = .ok (false, estado_vitoria) := by
  unfold fazer_jogada
  simp [predicado_espera, estado_vitoria]

theorem segue_terminado {s t : JogoDaVelha} (h : Segue s t) (ht : s.jogo_terminado = true) :
    t = s := by
  induction h with
  | inicio => rfl
  | passo _ hstep ih =>
    subst ih
    rcases fazer_jogada_ok hstep with ⟨_, _, rfl⟩ | ⟨hf, _⟩
    · rfl
    · rw [ht] at hf
      exact absurd hf (by decide)

theorem celula_some {t : Tabuleiro} {linha coluna : Int} {i k : Fin 3}
    (hi : indice linha = some i) (hk : indice coluna = some k) :
    t.celula linha coluna = some (t.get i k) := by
  simp [Tabuleiro.celula, hi, hk]

/-! ## Outcome correctness -/

/-- C1. In every state reachable from the constructed board, for `S` one of
`'X'`, `'O'`: `vencedor = S` exactly when the grid holds three `S` along some
row, column or diagonal.  Once `jogo_terminado` is set no call changes the grid
or `vencedor`, so the grid of a finished state is the one left by the move that
set `vencedor`. -/
theorem C1_vencedor_sse_trinca (s : JogoDaVelha) (S : Char) (hs : Alcancavel s)
    (hS : S = 'X' ∨ S = 'O') :
    (s.vencedor = S ↔ tem_trinca s.tabuleiro S) ∧
    (s.jogo_terminado = true →
      ∀ (jogador : Char) (linha coluna : Int) (b : Bool) (s' : JogoDaVelha),
        fazer_jogada s jogador linha coluna = .ok (b, s') →
        s'.tabuleiro = s.tabuleiro ∧ s'.vencedor = s.vencedor) := by
  obtain ⟨_, hrun, hfim⟩ := invariante_alcancavel hs
  refine ⟨?_, fun ht jogador linha coluna b s' h => ?_⟩
  · cases ht : s.jogo_terminado with
    | false =>
      obtain ⟨hv, hnx, hno, _⟩ := hrun ht
      rcases hS with rfl | rfl
      · exact ⟨fun h => absurd (hv ▸ h) (by decide), fun h => absurd h hnx⟩
      · exact ⟨fun h => absurd (hv ▸ h) (by decide), fun h => absurd h hno⟩
    | true =>
      rcases hfim ht with ⟨hv, hx, hno⟩ | ⟨hv, ho, hnx⟩ | ⟨hv, _, hnx, hno⟩
      · rcases hS with rfl | rfl
        · exact ⟨fun _ => hx, fun _ => hv⟩
        · exact ⟨fun h => absurd (hv ▸ h) (by decide), fun h => absurd h hno⟩
      · rcases hS with rfl | rfl
        · exact ⟨fun h => absurd (hv ▸ h) (by decide), fun h => absurd h hnx⟩
        · exact ⟨fun _ => ho, fun _ => hv⟩
      · rcases hS with rfl | rfl
        · exact ⟨fun h => absurd (hv ▸ h) (by decide), fun h => absurd h hnx⟩
        · exact ⟨fun h => absurd (hv ▸ h) (by decide), fun h => absurd h hno⟩
  · rcases fazer_jogada_ok h with ⟨_, _, rfl⟩ | ⟨hf, _⟩
    · exact ⟨rfl, rfl⟩
    · rw [ht] at hf
      exact absurd hf (by decide)

/-- C1 at the state left by `'X'` completing row 0. -/
theorem C1_vencedor_sse_trinca_witness :
    Alcancavel estado_vitoria ∧ ('X' = 'X' ∨ 'X' = 'O') ∧
    (estado_vitoria.vencedor = 'X' ↔ tem_trinca estado_vitoria.tabuleiro 'X') :=
  ⟨alcancavel_of_execucao execucao_vitoria, Or.inl rfl,
   (C1_vencedor_sse_trinca estado_vitoria 'X' (alcancavel_of_execucao execucao_vitoria)
      (Or.inl rfl)).1⟩

/-- C2. In every state reached by a call sequence from the constructed board,
`vencedor = 'E'` exactly when all 9 cells are non-empty and neither `'X'` nor
`'O'` has three in a row; and when nine calls have returned `true` and the grid
shows no three in a row for either symbol, `vencedor = 'E'`. -/
theorem C2_empate_sse_cheio_sem_trinca (tr : List Char) (s : JogoDaVelha)
    (hs : Execucao tr s) :
    (s.vencedor = 'E' ↔
      cheio s.tabuleiro ∧ ¬ tem_trinca s.tabuleiro 'X' ∧ ¬ tem_trinca s.tabuleiro 'O') ∧
    (tr.length = 9 → ¬ tem_trinca s.tabuleiro 'X' → ¬ tem_trinca s.tabuleiro 'O' →
      s.vencedor = 'E') := by
  obtain ⟨_, hrun, hfim⟩ := invariante_alcancavel (alcancavel_of_execucao hs)
  have hiff : s.vencedor = 'E' ↔
      cheio s.tabuleiro ∧ ¬ tem_trinca s.tabuleiro 'X' ∧ ¬ tem_trinca s.tabuleiro 'O' := by
    cases ht : s.jogo_terminado with
    | false =>
      obtain ⟨hv, _, _, hnc⟩ := hrun ht
      exact ⟨fun h => absurd (hv ▸ h) (by decide), fun h => absurd h.1 hnc⟩
    | true =>
      rcases hfim ht with ⟨hv, hx, _⟩ | ⟨hv, ho, _⟩ | ⟨hv, hc, hnx, hno⟩
      · exact ⟨fun h => absurd (hv ▸ h) (by decide), fun h => absurd hx h.2.1⟩
      · exact ⟨fun h => absurd (hv ▸ h) (by decide), fun h => absurd ho h.2.2⟩
      · exact ⟨fun _ => ⟨hc, hnx, hno⟩, fun _ => hv⟩
  refine ⟨hiff, fun hlen hnx hno => hiff.2 ⟨?_, hnx, hno⟩⟩
  have := execucao_vazias hs
  exact cheio_of_vazias_zero (by omega)

/-- C2 at the state left by a nine-move game with no complete line. -/
theorem C2_empate_sse_cheio_sem_trinca_witness :
    Execucao ['X', 'O', 'X', 'O', 'X', 'O', 'X', 'O', 'X'] estado_empate ∧
    estado_empate.vencedor = 'E' :=
  ⟨execucao_empate,
   (C2_empate_sse_cheio_sem_trinca _ estado_empate execucao_empate).2 rfl
     (by decide) (by decide)⟩

/-! ## Single calls -/

/-- C3. In a state with `jogo_terminado = false` and `jogador_atual = jogador`,
for in-range `(linha, coluna)` whose cell is `' '`, `fazer_jogada` returns
`true` and leaves `tabuleiro[linha][coluna] = jogador`. -/
theorem C3_jogada_aceita (s : JogoDaVelha) (jogador : Char) (linha coluna : Int)
    (ht : s.jogo_terminado = false) (hj : s.jogador_atual = jogador)
    (hl : 0 ≤ linha ∧ linha ≤ 2) (hc : 0 ≤ coluna ∧ coluna ≤ 2)
    (he : s.tabuleiro.celula linha coluna = some ' ') :
    ∃ s' : JogoDaVelha, fazer_jogada s jogador linha coluna = .ok (true, s') ∧
      s'.tabuleiro.celula linha coluna = some jogador := by
  obtain ⟨i, hi⟩ := indice_of_range hl.1 hl.2
  obtain ⟨k, hk⟩ := indice_of_range hc.1 hc.2
  rw [celula_some hi hk] at he
  have he' : s.tabuleiro.get i k = ' ' := by simpa using he
  have hcell : ∀ s' : JogoDaVelha, s'.tabuleiro = s.tabuleiro.set i k jogador →
      s'.tabuleiro.celula linha coluna = some jogador := by
    intro s' hs'
    rw [celula_some hi hk, hs', Tabuleiro.get_set]
    simp
  unfold fazer_jogada
  simp only [predicado_espera, hj, ht, hi, hk, he', beq_self_eq_true, Bool.or_false,
    Bool.not_true, Bool.false_eq_true, if_false, if_true]
  split
  · exact ⟨_, rfl, hcell _ rfl⟩
  · split
    · exact ⟨_, rfl, hcell _ rfl⟩
    · exact ⟨_, rfl, hcell _ rfl⟩

/-- C3 at the first move of a game. -/
theorem C3_jogada_aceita_witness :
    ∃ s' : JogoDaVelha, fazer_jogada novo 'X' 1 1 = .ok (true, s') ∧
      s'.tabuleiro.celula 1 1 = some 'X' :=
  C3_jogada_aceita novo 'X' 1 1 rfl rfl (by decide) (by decide) (by decide)

/-- C4. In a state with `jogo_terminado = false` and `jogador_atual = jogador`,
for in-range `(linha, coluna)` whose cell is not `' '`, `fazer_jogada` returns
`false` and leaves the whole state (`tabuleiro`, `jogador_atual`,
`jogo_terminado`, `vencedor`) as it was. -/
theorem C4_celula_ocupada_rejeitada (s : JogoDaVelha) (jogador : Char) (linha coluna : Int)
    (ht : s.jogo_terminado = false) (hj : s.jogador_atual = jogador)
    (hl : 0 ≤ linha ∧ linha ≤ 2) (hc : 0 ≤ coluna ∧ coluna ≤ 2)
    (he : s.tabuleiro.celula linha coluna ≠ some ' ') :
    fazer_jogada s jogador linha coluna = .ok (false, s) := by
  obtain ⟨i, hi⟩ := indice_of_range hl.1 hl.2
  obtain ⟨k, hk⟩ := indice_of_range hc.1 hc.2
  rw [celula_some hi hk] at he
  have he' : ¬ s.tabuleiro.get i k = ' ' := by simpa using he
  unfold fazer_jogada
  simp [predicado_espera, hj, ht, hi, hk, he']

/-- C4 at a second attempt on a cell taken by the first move. -/
theorem C4_celula_ocupada_rejeitada_witness :
    estado_antes_vitoria.tabuleiro.celula 0 1 ≠ some ' ' ∧
    fazer_jogada estado_antes_vitoria 'X' 0 1 = .ok (false, estado_antes_vitoria) :=
  ⟨by decide,
   C4_celula_ocupada_rejeitada estado_antes_vitoria 'X' 0 1 rfl rfl (by decide) (by decide)
     (by decide)⟩

/-- C5. In a state with `jogo_terminado = true`, for every symbol and every
coordinate pair (in range or not, cell empty or not, caller's turn or not),
`fazer_jogada` returns `false` and leaves every field as it was. -/
theorem C5_saida_rapida (s : JogoDaVelha) (jogador : Char) (linha coluna : Int)
    (ht : s.jogo_terminado = true) :
    fazer_jogada s jogador linha coluna = .ok (false, s) := by
  unfold fazer_jogada
  simp [predicado_espera, ht]

/-- C5 at a finished game: the other symbol, a free cell out of turn, and
coordinates outside the grid. -/
theorem C5_saida_rapida_witness :
    estado_vitoria.jogo_terminado = true ∧
    fazer_jogada estado_vitoria 'O' 2 2 = .ok (false, estado_vitoria) ∧
    fazer_jogada estado_vitoria 'X' 7 (-1) = .ok (false, estado_vitoria) :=
  ⟨rfl, C5_saida_rapida estado_vitoria 'O' 2 2 rfl, C5_saida_rapida estado_vitoria 'X' 7 (-1) rfl⟩

/-! ## Turn alternation -/

/-- C6. In every call sequence from the constructed board, each call taken in a
state where it returns, the symbols of the calls that returned `true` are
`'X', 'O', 'X', 'O', ...`: the list equals `alternada` of its length, it starts
with `'X'`, and no two neighbours are equal. -/
theorem C6_alternancia_estrita (tr : List Char) (s : JogoDaVelha) (h : Execucao tr s) :
    tr = alternada tr.length ∧
    (tr ≠ [] → tr[0]? = some 'X') ∧
    (∀ k : Nat, k + 1 < tr.length → tr[k]? ≠ tr[k + 1]?) := by
  have halt := (execucao_turno h).1
  refine ⟨halt, fun hne => ?_, fun k hk => ?_⟩
  · have hpos : 0 < tr.length := List.length_pos.mpr hne
    rw [halt, alternada_getElem? hpos]
    rfl
  · have h1 : tr[k]? = some (if k % 2 = 0 then 'X' else 'O') := by
      conv_lhs => rw [halt]
      exact alternada_getElem? (by omega)
    have h2 : tr[k + 1]? = some (if (k + 1) % 2 = 0 then 'X' else 'O') := by
      conv_lhs => rw [halt]
      exact alternada_getElem? hk
    rw [h1, h2]
    rcases Nat.mod_two_eq_zero_or_one k with h0 | h0
    · have h3 : (k + 1) % 2 = 1 := by omega
      rw [h0, h3]; decide
    · have h3 : (k + 1) % 2 = 0 := by omega
      rw [h0, h3]; decide

/-- C6 at a five-move game won by `'X'`. -/
theorem C6_alternancia_estrita_witness :
    Execucao ['X', 'O', 'X', 'O', 'X'] estado_vitoria ∧
    ['X', 'O', 'X', 'O', 'X'] = alternada 5 :=
  ⟨execucao_vitoria, (C6_alternancia_estrita _ estado_vitoria execucao_vitoria).1⟩

/-- C7, as stated, fails: from the reachable state with `'X'` on (0,0), (0,1)
and `'O'` on (1,0), (1,1), the call `fazer_jogada('X', 0, 2)` returns `true`,
ends the game, and leaves `jogador_atual = 'X'`, the symbol that just moved. -/
theorem C7_turno_contraexemplo :
    Alcancavel estado_antes_vitoria ∧
    fazer_jogada estado_antes_vitoria 'X' 0 2 = .ok (true, estado_vitoria) ∧
    estado_vitoria.jogador_atual = 'X' :=
  ⟨alcancavel_of_execucao execucao_antes_vitoria, by decide, rfl⟩

/-- C7, amended. After every `fazer_jogada(jogador, linha, coluna)` call that
returns `true` and does not end the game (`jogo_terminado` still false),
`jogador_atual` is not equal to `jogador`. -/
theorem C7_turno_difere_apos_jogada (s s' : JogoDaVelha) (jogador : Char)
    (linha coluna : Int) (h : fazer_jogada s jogador linha coluna = .ok (true, s'))
    (hnt : s'.jogo_terminado = false) : s'.jogador_atual ≠ jogador := by
  obtain ⟨_, _, i, k, _, _, _, hw⟩ := aceita_escrita h
  rcases hw with ⟨_, rfl⟩ | ⟨_, _, rfl⟩ | ⟨_, _, rfl⟩
  · exact absurd hnt (by simp)
  · exact absurd hnt (by simp)
  · simp only []
    by_cases hx : jogador = 'X'
    · rw [if_pos hx, hx]; decide
    · rw [if_neg hx]; exact fun h => hx h.symm

/-- C7 amended, at the first move of a game. -/
theorem C7_turno_difere_apos_jogada_witness :
    fazer_jogada novo 'X' 0 0 =
      .ok (true, { novo with tabuleiro := novo.tabuleiro.set 0 0 'X', jogador_atual := 'O' }) ∧
    ({ novo with tabuleiro := novo.tabuleiro.set 0 0 'X', jogador_atual := 'O' } :
      JogoDaVelha).jogador_atual ≠ 'X' :=
  ⟨by decide, C7_turno_difere_apos_jogada novo _ 'X' 0 0 (by decide) rfl⟩

/-! ## Termination -/

/-- C8. In every state reachable from the constructed board, `jogo_terminado`
is true exactly when the grid holds three in a row for `'X'` or for `'O'`, or
has no empty cell. -/
theorem C8_terminado_sse_terminal (s : JogoDaVelha) (hs : Alcancavel s) :
    s.jogo_terminado = true ↔
      (tem_trinca s.tabuleiro 'X' ∨ tem_trinca s.tabuleiro 'O' ∨ cheio s.tabuleiro) := by
  obtain ⟨_, hrun, hfim⟩ := invariante_alcancavel hs
  constructor
  · intro ht
    rcases hfim ht with ⟨_, hx, _⟩ | ⟨_, ho, _⟩ | ⟨_, hc, _⟩
    · exact Or.inl hx
    · exact Or.inr (Or.inl ho)
    · exact Or.inr (Or.inr hc)
  · intro hterm
    cases ht : s.jogo_terminado with
    | true => rfl
    | false =>
      obtain ⟨_, hnx, hno, hnc⟩ := hrun ht
      rcases hterm with hx | ho | hc
      · exact absurd hx hnx
      · exact absurd ho hno
      · exact absurd hc hnc

/-- C8 at a running game (four moves played) and at the drawn game. -/
theorem C8_terminado_sse_terminal_witness :
    (Alcancavel estado_antes_vitoria ∧ estado_antes_vitoria.jogo_terminado = false ∧
      ¬ (tem_trinca estado_antes_vitoria.tabuleiro 'X' ∨
         tem_trinca estado_antes_vitoria.tabuleiro 'O' ∨ cheio estado_antes_vitoria.tabuleiro)) ∧
    (Alcancavel estado_empate ∧ estado_empate.jogo_terminado = true) :=
  ⟨⟨alcancavel_of_execucao execucao_antes_vitoria, rfl,
    fun h => absurd ((C8_terminado_sse_terminal estado_antes_vitoria
      (alcancavel_of_execucao execucao_antes_vitoria)).2 h) (by decide)⟩,
   alcancavel_of_execucao execucao_empate,
   (C8_terminado_sse_terminal estado_empate (alcancavel_of_execucao execucao_empate)).2
     (Or.inr (Or.inr (by decide)))⟩

/-- C9. For every state and every returning `fazer_jogada` call from `s` to
`s'`: if `jogo_terminado` was true before, it is true after and `vencedor` is
unchanged; a call that changes `vencedor` is one that takes `jogo_terminado`
from false to true; and once `jogo_terminado` is true, every later call
sequence leaves it true with the same `vencedor`. -/
theorem C9_terminacao_unica (s s' t : JogoDaVelha) (jogador : Char) (linha coluna : Int)
    (b : Bool) (hcall : fazer_jogada s jogador linha coluna = .ok (b, s'))
    (hseq : Segue s' t) :
    (s.jogo_terminado = true → s'.jogo_terminado = true ∧ s'.vencedor = s.vencedor) ∧
    (s'.vencedor ≠ s.vencedor → s.jogo_terminado = false ∧ s'.jogo_terminado = true) ∧
    (s'.jogo_terminado = true → t.jogo_terminado = true ∧ t.vencedor = s'.vencedor) := by
  refine ⟨fun ht => ?_, fun hv => ?_, fun ht => ?_⟩
  · rcases fazer_jogada_ok hcall with ⟨_, _, rfl⟩ | ⟨hf, _⟩
    · exact ⟨ht, rfl⟩
    · rw [ht] at hf
      exact absurd hf (by decide)
  · rcases fazer_jogada_ok hcall with ⟨_, _, rfl⟩ | ⟨hf, _, i, k, _, _, hcase⟩
    · exact absurd rfl hv
    · rcases hcase with ⟨_, _, rfl⟩ | ⟨_, _, hw⟩
      · exact absurd rfl hv
      · rcases hw with ⟨_, rfl⟩ | ⟨_, _, rfl⟩ | ⟨_, _, rfl⟩
        · exact ⟨hf, rfl⟩
        · exact ⟨hf, rfl⟩
        · exact absurd rfl hv
  · rw [segue_terminado hseq ht]
    exact ⟨ht, rfl⟩

/-- C9 at the winning move of `'X'` followed by two further attempts. -/
theorem C9_terminacao_unica_witness :
    fazer_jogada estado_antes_vitoria 'X' 0 2 = .ok (true, estado_vitoria) ∧
    Segue estado_vitoria estado_vitoria ∧
    (estado_vitoria.vencedor ≠ estado_antes_vitoria.vencedor →
      estado_antes_vitoria.jogo_terminado = false ∧ estado_vitoria.jogo_terminado = true) :=
  ⟨by decide,
   Segue.passo (Segue.passo Segue.inicio (estado_vitoria_rejeita 'O' 2 2)) (estado_vitoria_rejeita 'X' 1 2),
   (C9_terminacao_unica estado_antes_vitoria estado_vitoria estado_vitoria 'X' 0 2 true
      (by decide)
      (Segue.passo (Segue.passo Segue.inicio (estado_vitoria_rejeita 'O' 2 2))
        (estado_vitoria_rejeita 'X' 1 2))).2.1⟩

/-- C10. Along every call sequence from the constructed board: a call that
returns `true` leaves exactly one empty cell fewer; at most 9 calls have
returned `true`; and when 9 have, `jogo_terminado` is true. -/
theorem C10_terminacao_limitada (tr : List Char) (s : JogoDaVelha) (h : Execucao tr s) :
    (∀ (jogador : Char) (linha coluna : Int) (s' : JogoDaVelha),
      fazer_jogada s jogador linha coluna = .ok (true, s') →
      s'.tabuleiro.vazias + 1 = s.tabuleiro.vazias) ∧
    tr.length ≤ 9 ∧
    (tr.length = 9 → s.jogo_terminado = true) := by
  have hinv := invariante_alcancavel (alcancavel_of_execucao h)
  have hcount := execucao_vazias h
  refine ⟨fun jogador linha coluna s' hstep => vazias_aceita hinv hstep, by omega, fun h9 => ?_⟩
  cases ht : s.jogo_terminado with
  | true => rfl
  | false =>
    exact absurd (cheio_of_vazias_zero (by omega)) (hinv.2.1 ht).2.2.2

/-- C10 at the nine-move drawn game. -/
theorem C10_terminacao_limitada_witness :
    Execucao ['X', 'O', 'X', 'O', 'X', 'O', 'X', 'O', 'X'] estado_empate ∧
    estado_empate.jogo_terminado = true :=
  ⟨execucao_empate, (C10_terminacao_limitada _ estado_empate execucao_empate).2.2 rfl⟩

/-! ## Frame of a call -/

theorem fazer_jogada_retorna {s : JogoDaVelha} {jogador : Char} {linha coluna : Int}
    (hl : 0 ≤ linha ∧ linha ≤ 2) (hc : 0 ≤ coluna ∧ coluna ≤ 2)
    (hp : predicado_espera s jogador = true) :
    ∃ (b : Bool) (s' : JogoDaVelha), fazer_jogada s jogador linha coluna = .ok (b, s') := by
  obtain ⟨i, hi⟩ := indice_of_range hl.1 hl.2
  obtain ⟨k, hk⟩ := indice_of_range hc.1 hc.2
  unfold fazer_jogada
  simp only [hp, hi, hk, Bool.not_true, Bool.false_eq_true, if_false]
  split
  · exact ⟨_, _, rfl⟩
  · split
    · split
      · exact ⟨_, _, rfl⟩
      · split
        · exact ⟨_, _, rfl⟩
        · exact ⟨_, _, rfl⟩
    · exact ⟨_, _, rfl⟩

/-- The cells a returning call leaves: all as before, or all as before but one
that was `' '` and now holds `jogador`. -/
theorem fazer_jogada_celulas {s s' : JogoDaVelha} {jogador : Char} {linha coluna : Int}
    {b : Bool} (h : fazer_jogada s jogador linha coluna = .ok (b, s')) :
    s'.tabuleiro = s.tabuleiro ∨
    ∃ i k : Fin 3, s.tabuleiro.get i k = ' ' ∧ s'.tabuleiro = s.tabuleiro.set i k jogador := by
  rcases fazer_jogada_ok h with ⟨_, _, rfl⟩ | ⟨_, _, i, k, _, _, hcase⟩
  · exact Or.inl rfl
  · rcases hcase with ⟨_, _, rfl⟩ | ⟨he, _, hw⟩
    · exact Or.inl rfl
    · exact Or.inr ⟨i, k, he, apos_escrita_tabuleiro hw⟩

/-- C11. For every state and every `fazer_jogada` call with in-range
coordinates whose wait predicate holds, the call returns, and in the grid it
leaves: every cell that was non-empty holds the value it had; any two cells
that differ from before are the same cell; and a cell that differs was `' '`
and now holds the caller's symbol. -/
theorem C11_celula_escrita_uma_vez (s : JogoDaVelha) (jogador : Char) (linha coluna : Int)
    (hl : 0 ≤ linha ∧ linha ≤ 2) (hc : 0 ≤ coluna ∧ coluna ≤ 2)
    (hp : predicado_espera s jogador = true) :
    ∃ (b : Bool) (s' : JogoDaVelha), fazer_jogada s jogador linha coluna = .ok (b, s') ∧
      (∀ a c : Fin 3, s.tabuleiro.get a c ≠ ' ' → s'.tabuleiro.get a c = s.tabuleiro.get a c) ∧
      (∀ a c a' c' : Fin 3, s'.tabuleiro.get a c ≠ s.tabuleiro.get a c →
        s'.tabuleiro.get a' c' ≠ s.tabuleiro.get a' c' → a = a' ∧ c = c') ∧
      (∀ a c : Fin 3, s'.tabuleiro.get a c ≠ s.tabuleiro.get a c →
        s.tabuleiro.get a c = ' ' ∧ s'.tabuleiro.get a c = jogador) := by
  obtain ⟨b, s', h⟩ := fazer_jogada_retorna hl hc hp
  refine ⟨b, s', h, ?_⟩
  rcases fazer_jogada_celulas h with heq | ⟨i, k, he, hset⟩
  · rw [heq]
    exact ⟨fun _ _ _ => rfl, fun _ _ _ _ hd => absurd rfl hd, fun _ _ hd => absurd rfl hd⟩
  · have hget : ∀ a c : Fin 3, s'.tabuleiro.get a c ≠ s.tabuleiro.get a c → a = i ∧ c = k := by
      intro a c hd
      by_contra hne
      rw [hset, Tabuleiro.get_set, if_neg hne] at hd
      exact hd rfl
    refine ⟨fun a c hne => ?_, fun a c a' c' hd hd' => ?_, fun a c hd => ?_⟩
    · rw [hset, Tabuleiro.get_set]
      split
      · rename_i hik
        rw [hik.1, hik.2] at hne
        exact absurd he hne
      · rfl
    · obtain ⟨h1, h2⟩ := hget a c hd
      obtain ⟨h3, h4⟩ := hget a' c' hd'
      exact ⟨h1.trans h3.symm, h2.trans h4.symm⟩
    · obtain ⟨h1, h2⟩ := hget a c hd
      subst h1 h2
      refine ⟨he, ?_⟩
      rw [hset, Tabuleiro.get_set]
      simp

/-- C11 at the fifth move of a game: `'X'` on the free cell (0,2). -/
theorem C11_celula_escrita_uma_vez_witness :
    ∃ (b : Bool) (s' : JogoDaVelha),
      fazer_jogada estado_antes_vitoria 'X' 0 2 = .ok (b, s') ∧
      (∀ a c : Fin 3, estado_antes_vitoria.tabuleiro.get a c ≠ ' ' →
        s'.tabuleiro.get a c = estado_antes_vitoria.tabuleiro.get a c) :=
  let ⟨b, s', h, h1, _⟩ :=
    C11_celula_escrita_uma_vez estado_antes_vitoria 'X' 0 2 (by decide) (by decide) rfl
  ⟨b, s', h, h1⟩

/-- C12. In every state reachable from the constructed board (that board
included): when `jogo_acabou()` returns false, `obter_vencedor()` returns
`' '`; when `jogo_acabou()` returns true, `obter_vencedor()` returns `'X'`,
`'O'` or `'E'`. -/
theorem C12_vencedor_indeterminado (s : JogoDaVelha) (hs : Alcancavel s) :
    (jogo_acabou s = false → obter_vencedor s = ' ') ∧
    (jogo_acabou s = true →
      obter_vencedor s = 'X' ∨ obter_vencedor s = 'O' ∨ obter_vencedor s = 'E') := by
  obtain ⟨_, hrun, hfim⟩ := invariante_alcancavel hs
  refine ⟨fun ht => (hrun ht).1, fun ht => ?_⟩
  rcases hfim ht with ⟨hv, _⟩ | ⟨hv, _⟩ | ⟨hv, _⟩
  · exact Or.inl hv
  · exact Or.inr (Or.inl hv)
  · exact Or.inr (Or.inr hv)

/-- C12 at the constructed board and at a game won by `'X'`. -/
theorem C12_vencedor_indeterminado_witness :
    (Alcancavel novo ∧ jogo_acabou novo = false ∧ obter_vencedor novo = ' ') ∧
    (Alcancavel estado_vitoria ∧ jogo_acabou estado_vitoria = true ∧
      (obter_vencedor estado_vitoria = 'X' ∨ obter_vencedor estado_vitoria = 'O' ∨
        obter_vencedor estado_vitoria = 'E')) :=
  ⟨⟨Alcancavel.inicio, rfl, (C12_vencedor_indeterminado novo Alcancavel.inicio).1 rfl⟩,
   alcancavel_of_execucao execucao_vitoria, rfl,
   (C12_vencedor_indeterminado estado_vitoria (alcancavel_of_execucao execucao_vitoria)).2 rfl⟩

/-! ## Scenarios -/

theorem fazer_jogada_terminado {s : JogoDaVelha} (ht : s.jogo_terminado = true)
    (jogador : Char) (linha coluna : Int) :
    fazer_jogada s jogador linha coluna = .ok (false, s) := by
  unfold fazer_jogada
  simp [predicado_espera, ht]

/-- C13. From the constructed board, for every two distinct cells `(r1, c1)`,
`(r2, c2)` outside row 0, the calls `X(0,0)`, `O(r1,c1)`, `X(0,1)`, `O(r2,c2)`,
`X(0,2)` all return `true`; after the fifth `jogo_terminado` is true and
`vencedor = 'X'`; and every later call, for any symbol and any coordinates,
returns `false`. -/
theorem C13_vitoria_linha_zero (r1 c1 r2 c2 : Int)
    (hr1 : 1 ≤ r1 ∧ r1 ≤ 2) (hc1 : 0 ≤ c1 ∧ c1 ≤ 2)
    (hr2 : 1 ≤ r2 ∧ r2 ≤ 2) (hc2 : 0 ≤ c2 ∧ c2 ≤ 2)
    (hd : ¬ (r1 = r2 ∧ c1 = c2)) :
    ∃ s1 s2 s3 s4 s5 : JogoDaVelha,
      fazer_jogada novo 'X' 0 0 = .ok (true, s1) ∧
      fazer_jogada s1 'O' r1 c1 = .ok (true, s2) ∧
      fazer_jogada s2 'X' 0 1 = .ok (true, s3) ∧
      fazer_jogada s3 'O' r2 c2 = .ok (true, s4) ∧
      fazer_jogada s4 'X' 0 2 = .ok (true, s5) ∧
      s5.jogo_terminado = true ∧ s5.vencedor = 'X' ∧
      ∀ (jogador : Char) (linha coluna : Int),
        fazer_jogada s5 jogador linha coluna = .ok (false, s5) := by
  obtain ⟨h1, h2⟩ := hr1
  obtain ⟨h3, h4⟩ := hc1
  obtain ⟨h5, h6⟩ := hr2
  obtain ⟨h7, h8⟩ := hc2
  interval_cases r1 <;> interval_cases c1 <;> interval_cases r2 <;> interval_cases c2 <;>
    first
    | omega
    | exact ⟨_, _, _, _, _, rfl, rfl, rfl, rfl, rfl, rfl, rfl,
        fun jogador linha coluna => fazer_jogada_terminado rfl jogador linha coluna⟩

/-- C13 at `O` on (1,0) and (1,1). -/
theorem C13_vitoria_linha_zero_witness :
    ∃ s1 s2 s3 s4 s5 : JogoDaVelha,
      fazer_jogada novo 'X' 0 0 = .ok (true, s1) ∧
      fazer_jogada s1 'O' 1 0 = .ok (true, s2) ∧
      fazer_jogada s2 'X' 0 1 = .ok (true, s3) ∧
      fazer_jogada s3 'O' 1 1 = .ok (true, s4) ∧
      fazer_jogada s4 'X' 0 2 = .ok (true, s5) ∧
      s5.jogo_terminado = true ∧ s5.vencedor = 'X' ∧
      ∀ (jogador : Char) (linha coluna : Int),
        fazer_jogada s5 jogador linha coluna = .ok (false, s5) :=
  C13_vitoria_linha_zero 1 0 1 1 (by decide) (by decide) (by decide) (by decide) (by decide)

theorem execucao_cheia_vitoria :
    Execucao ['X', 'O', 'X', 'O', 'X', 'O', 'X', 'O', 'X'] estado_cheio_vitoria :=
  execucao_of_executar partida_cheia_vitoria Execucao.inicio (by decide)

/-! ## The helper checks against their descriptions -/

theorem vitoria_referencia_iff (t : Tabuleiro) (jogador : Char) (hj : jogador ≠ ' ') :
    vitoria_referencia t jogador = true ↔ tem_trinca t jogador := by
  rcases t with ⟨⟨c00, c01, c02⟩, ⟨c10, c11, c12⟩, ⟨c20, c21, c22⟩⟩
  simp only [vitoria_referencia, oito_linhas, tem_trinca, Fin.forall_fin_succ,
    Fin.exists_fin_succ, Tabuleiro.get, Tabuleiro.linha, Linha.get, List.any_cons,
    List.any_nil, Bool.or_false, Bool.or_eq_true, Bool.and_eq_true, beq_iff_eq, bne_iff_ne,
    ne_eq]
  simp
  constructor
  · rintro (h | h | h | h | h | h | h | h) <;> simp [h]
  · rintro ((h | h | h) | (h | h | h) | (h | h)) <;>
      (obtain ⟨h1, h2, h3⟩ := h; subst h1; simp_all)

/-- C14. For every board and every symbol argument (any `char` other than the
empty marker `' '`), `verificar_vitoria(jogador)` returns true exactly when at
least one of the 8 fixed lines consists of three equal non-empty cells all
matching `jogador`. -/
theorem C14_vitoria_igual_referencia (s : JogoDaVelha) (jogador : Char)
    (hj : jogador ≠ ' ') :
    verificar_vitoria s jogador = true ↔ vitoria_referencia s.tabuleiro jogador = true := by
  rw [verificar_vitoria_iff, vitoria_referencia_iff _ _ hj]

/-- C14 at the grid of a game won by `'X'` on row 0, for `'X'` and for `'O'`. -/
theorem C14_vitoria_igual_referencia_witness :
    (verificar_vitoria estado_vitoria 'X' = true ∧
      vitoria_referencia estado_vitoria.tabuleiro 'X' = true) ∧
    (verificar_vitoria estado_vitoria 'O' = false ∧
      vitoria_referencia estado_vitoria.tabuleiro 'O' = false) :=
  ⟨⟨by decide, (C14_vitoria_igual_referencia estado_vitoria 'X' (by decide)).1 (by decide)⟩,
   by decide, by decide⟩

/-! ## The sequential policy -/

theorem indice_val (i : Fin 3) : indice (i.val : Int) = some i := by
  fin_cases i <;> rfl

theorem varredura_eq :
    varredura = ordem_linha_maior.map fun p => ((p.1.val : Int), (p.2.val : Int)) := by
  decide

theorem fazer_jogada_ocupada {s : JogoDaVelha} {jogador : Char} {linha coluna : Int}
    {i k : Fin 3} (ht : s.jogo_terminado = false) (hj : s.jogador_atual = jogador)
    (hi : indice linha = some i) (hk : indice coluna = some k)
    (he : s.tabuleiro.get i k ≠ ' ') :
    fazer_jogada s jogador linha coluna = .ok (false, s) := by
  unfold fazer_jogada
  simp [predicado_espera, hj, ht, hi, hk, he]

theorem fazer_jogada_vazia {s : JogoDaVelha} {jogador : Char} {linha coluna : Int}
    {i k : Fin 3} (ht : s.jogo_terminado = false) (hj : s.jogador_atual = jogador)
    (hi : indice linha = some i) (hk : indice coluna = some k)
    (he : s.tabuleiro.get i k = ' ') :
    ∃ s' : JogoDaVelha, fazer_jogada s jogador linha coluna = .ok (true, s') ∧
      s'.tabuleiro = s.tabuleiro.set i k jogador := by
  unfold fazer_jogada
  simp only [predicado_espera, hj, ht, hi, hk, he, beq_self_eq_true, Bool.or_false,
    Bool.not_true, Bool.false_eq_true, if_false, if_true]
  split
  · exact ⟨_, rfl, rfl⟩
  · split
    · exact ⟨_, rfl, rfl⟩
    · exact ⟨_, rfl, rfl⟩

theorem jogar_sequencial_em_aceita {simbolo : Char} {s s' : JogoDaVelha} {linha coluna : Int}
    (resto : List (Int × Int))
    (h : fazer_jogada s simbolo linha coluna = .ok (true, s')) :
    jogar_sequencial_em simbolo ((linha, coluna) :: resto) s =
      ([⟨linha, coluna, .ok true⟩], s') := by
  simp [jogar_sequencial_em, h]

theorem jogar_sequencial_em_rejeitada {simbolo : Char} {s s' : JogoDaVelha}
    {linha coluna : Int} (resto : List (Int × Int))
    (h : fazer_jogada s simbolo linha coluna = .ok (false, s')) :
    jogar_sequencial_em simbolo ((linha, coluna) :: resto) s =
      (⟨linha, coluna, .ok false⟩ :: (jogar_sequencial_em simbolo resto s').1,
       (jogar_sequencial_em simbolo resto s').2) := by
  simp [jogar_sequencial_em, h]

/-- Over any list of cells, with the game running and the actor's turn: the
scan is rejected on the occupied cells and accepted on the first empty one. -/
theorem jogar_sequencial_em_primeira {simbolo : Char} {s : JogoDaVelha}
    (ht : s.jogo_terminado = false) (hj : s.jogador_atual = simbolo)
    (cs : List (Fin 3 × Fin 3)) :
    cs.find? (fun p => s.tabuleiro.get p.1 p.2 == ' ') = none ∨
    ∃ (p : Fin 3 × Fin 3) (s' : JogoDaVelha) (pre : List Tentativa),
      cs.find? (fun p => s.tabuleiro.get p.1 p.2 == ' ') = some p ∧
      s'.tabuleiro = s.tabuleiro.set p.1 p.2 simbolo ∧
      jogar_sequencial_em simbolo (cs.map fun q => ((q.1.val : Int), (q.2.val : Int))) s =
        (pre ++ [⟨(p.1.val : Int), (p.2.val : Int), .ok true⟩], s') ∧
      ∀ t ∈ pre, t.retorno = .ok false := by
  induction cs with
  | nil => exact Or.inl rfl
  | cons q resto ih =>
    by_cases hq : s.tabuleiro.get q.1 q.2 = ' '
    · obtain ⟨s', hcall, htab⟩ := fazer_jogada_vazia ht hj (indice_val q.1) (indice_val q.2) hq
      refine Or.inr ⟨q, s', [], ?_, htab, ?_, fun t ht => absurd ht (List.not_mem_nil t)⟩
      · simp [List.find?_cons, hq]
      · simp only [List.map_cons, List.nil_append]
        exact jogar_sequencial_em_aceita _ hcall
    · have hcall := fazer_jogada_ocupada ht hj (indice_val q.1) (indice_val q.2) hq
      have hfind : (q :: resto).find? (fun p => s.tabuleiro.get p.1 p.2 == ' ') =
          resto.find? (fun p => s.tabuleiro.get p.1 p.2 == ' ') := by
        simp [List.find?_cons, hq]
      rw [hfind]
      rcases ih with hnone | ⟨p, s', pre, hp, htab, hrun, hpre⟩
      · exact Or.inl hnone
      · refine Or.inr ⟨p, s', ⟨(q.1.val : Int), (q.2.val : Int), .ok false⟩ :: pre, hp, htab,
          ?_, ?_⟩
        · simp only [List.map_cons]
          rw [jogar_sequencial_em_rejeitada _ hcall, hrun]
          rfl
        · intro t ht
          rcases List.mem_cons.mp ht with rfl | hmem
          · rfl
          · exact hpre t hmem

theorem cheio_of_primeira_vazia_none {t : Tabuleiro} (h : primeira_vazia t = none) :
    cheio t := by
  unfold primeira_vazia at h
  rw [List.find?_eq_none] at h
  intro i k
  have hmem : (i, k) ∈ ordem_linha_maior := by
    fin_cases i <;> fin_cases k <;> decide
  simpa using h (i, k) hmem

/-- C18. In every reachable state with `jogo_terminado = false` and
`jogador_atual = simbolo`, one run of `jogar_sequencial()` makes calls that are
all rejected but the last, which is accepted at the first empty cell `(i, k)`
in row-major order; the state it leaves holds `simbolo` in that cell and every
other cell as before. -/
theorem C18_sequencial_primeira_vazia (s : JogoDaVelha) (simbolo : Char)
    (hs : Alcancavel s) (ht : s.jogo_terminado = false) (hj : s.jogador_atual = simbolo) :
    ∃ (i k : Fin 3) (s' : JogoDaVelha) (pre : List Tentativa),
      primeira_vazia s.tabuleiro = some (i, k) ∧
      jogar_sequencial simbolo s =
        (pre ++ [⟨(i.val : Int), (k.val : Int), .ok true⟩], s') ∧
      (∀ t ∈ pre, t.retorno = .ok false) ∧
      s'.tabuleiro.get i k = simbolo ∧
      ∀ a c : Fin 3, ¬ (a = i ∧ c = k) → s'.tabuleiro.get a c = s.tabuleiro.get a c := by
  rcases jogar_sequencial_em_primeira ht hj ordem_linha_maior with
    hnone | ⟨p, s', pre, hp, htab, hrun, hpre⟩
  · exact absurd (cheio_of_primeira_vazia_none hnone)
      ((invariante_alcancavel hs).2.1 ht).2.2.2
  · refine ⟨p.1, p.2, s', pre, hp, ?_, hpre, ?_, fun a c hne => ?_⟩
    · unfold jogar_sequencial
      rw [varredura_eq]
      exact hrun
    · rw [htab, Tabuleiro.get_set]
      simp
    · rw [htab, Tabuleiro.get_set, if_neg hne]

/-- C18 at a game with four moves played: the scan is rejected on (0,0) and
(0,1) and places `'X'` on (0,2). -/
theorem C18_sequencial_primeira_vazia_witness :
    Alcancavel estado_antes_vitoria ∧
    ∃ (i k : Fin 3) (s' : JogoDaVelha) (pre : List Tentativa),
      primeira_vazia estado_antes_vitoria.tabuleiro = some (i, k) ∧
      jogar_sequencial 'X' estado_antes_vitoria =
        (pre ++ [⟨(i.val : Int), (k.val : Int), .ok true⟩], s') ∧
      (∀ t ∈ pre, t.retorno = .ok false) ∧
      s'.tabuleiro.get i k = 'X' ∧
      ∀ a c : Fin 3, ¬ (a = i ∧ c = k) →
        s'.tabuleiro.get a c = estado_antes_vitoria.tabuleiro.get a c :=
  ⟨alcancavel_of_execucao execucao_antes_vitoria,
   C18_sequencial_primeira_vazia estado_antes_vitoria 'X'
     (alcancavel_of_execucao execucao_antes_vitoria) rfl rfl⟩

/-! ## Piece counts -/

theorem conta_set {t : Tabuleiro} {i j : Fin 3} {v c : Char} (he : t.get i j = ' ')
    (hc : c ≠ ' ') :
    (t.set i j v).conta c = t.conta c + if v = c then 1 else 0 := by
  have hc' : ¬ ' ' = c := fun h => hc h.symm
  rcases t with ⟨⟨c00, c01, c02⟩, ⟨c10, c11, c12⟩, ⟨c20, c21, c22⟩⟩
  fin_cases i <;> fin_cases j <;>
    simp [Tabuleiro.get, Tabuleiro.linha, Linha.get] at he <;>
    subst he <;>
    simp [Tabuleiro.conta, Tabuleiro.set, Linha.set, Tabuleiro.linhas, Linha.celulas,
      List.count_cons, hc'] <;>
    omega

theorem celulas_set {t : Tabuleiro} {i j : Fin 3} {v : Char}
    (ht : ∀ a c : Fin 3, t.get a c = ' ' ∨ t.get a c = 'X' ∨ t.get a c = 'O')
    (hv : v = 'X' ∨ v = 'O') (a c : Fin 3) :
    (t.set i j v).get a c = ' ' ∨ (t.set i j v).get a c = 'X' ∨ (t.set i j v).get a c = 'O' := by
  rw [Tabuleiro.get_set]
  split
  · exact Or.inr hv
  · exact ht a c

/-- The piece-count facts about a state. -/
theorem contagem_passo {s s' : JogoDaVelha} {jogador : Char} {linha coluna : Int} {b : Bool}
    (hcel : ∀ a c : Fin 3, s.tabuleiro.get a c = ' ' ∨ s.tabuleiro.get a c = 'X' ∨
      s.tabuleiro.get a c = 'O')
    (hturn : s.jogador_atual = 'X' ∨ s.jogador_atual = 'O')
    (hdif : s.tabuleiro.conta 'X' = s.tabuleiro.conta 'O' ∨
      s.tabuleiro.conta 'X' = s.tabuleiro.conta 'O' + 1)
    (hrun : s.jogo_terminado = false →
      (s.jogador_atual = 'X' ↔ s.tabuleiro.conta 'X' = s.tabuleiro.conta 'O'))
    (h : fazer_jogada s jogador linha coluna = .ok (b, s')) :
    (∀ a c : Fin 3, s'.tabuleiro.get a c = ' ' ∨ s'.tabuleiro.get a c = 'X' ∨
      s'.tabuleiro.get a c = 'O') ∧
    (s'.jogador_atual = 'X' ∨ s'.jogador_atual = 'O') ∧
    (s'.tabuleiro.conta 'X' = s'.tabuleiro.conta 'O' ∨
      s'.tabuleiro.conta 'X' = s'.tabuleiro.conta 'O' + 1) ∧
    (s'.jogo_terminado = false →
      (s'.jogador_atual = 'X' ↔ s'.tabuleiro.conta 'X' = s'.tabuleiro.conta 'O')) := by
  rcases fazer_jogada_ok h with ⟨_, _, rfl⟩ | ⟨ht, hj, i, k, _, _, hcase⟩
  · exact ⟨hcel, hturn, hdif, hrun⟩
  · rcases hcase with ⟨_, _, rfl⟩ | ⟨he, _, hw⟩
    · exact ⟨hcel, hturn, hdif, hrun⟩
    · have hx := @conta_set _ _ _ jogador 'X' he (by decide)
      have ho := @conta_set _ _ _ jogador 'O' he (by decide)
      have hiff := hrun ht
      rw [hj] at hturn hiff
      have htab := apos_escrita_tabuleiro hw
      refine ⟨?_, ?_, ?_, ?_⟩
      · rw [htab]
        exact celulas_set hcel hturn
      · rcases hw with ⟨_, rfl⟩ | ⟨_, _, rfl⟩ | ⟨_, _, rfl⟩
        · exact hj ▸ hturn
        · exact hj ▸ hturn
        · rcases hturn with rfl | rfl
          · exact Or.inr (by simp)
          · exact Or.inl (by simp)
      · rw [htab, hx, ho]
        rcases hturn with rfl | rfl
        · have := hiff.1 rfl
          simp
          omega
        · have hne : ¬ s.tabuleiro.conta 'X' = s.tabuleiro.conta 'O' :=
            fun h => absurd (hiff.2 h) (by decide)
          simp
          omega
      · intro hnt
        rcases hw with ⟨_, rfl⟩ | ⟨_, _, rfl⟩ | ⟨_, _, rfl⟩
        · exact absurd hnt (by simp)
        · exact absurd hnt (by simp)
        · simp only [] at hx ho ⊢
          rw [hx, ho]
          rcases hturn with rfl | rfl
          · have := hiff.1 rfl
            simp
            omega
          · have hne : ¬ s.tabuleiro.conta 'X' = s.tabuleiro.conta 'O' :=
              fun h => absurd (hiff.2 h) (by decide)
            simp
            omega

/-- C19. In every state reachable from the constructed board: every cell is
`' '`, `'X'` or `'O'`; `jogador_atual` is `'X'` or `'O'`; the number of `'X'`
cells minus the number of `'O'` cells is 0 or 1; and while `jogo_terminado` is
false, `jogador_atual = 'X'` exactly when the two counts are equal. -/
theorem C19_contagem_de_pecas (s : JogoDaVelha) (hs : Alcancavel s) :
    (∀ a c : Fin 3, s.tabuleiro.get a c = ' ' ∨ s.tabuleiro.get a c = 'X' ∨
      s.tabuleiro.get a c = 'O') ∧
    (s.jogador_atual = 'X' ∨ s.jogador_atual = 'O') ∧
    (s.tabuleiro.conta 'X' = s.tabuleiro.conta 'O' ∨
      s.tabuleiro.conta 'X' = s.tabuleiro.conta 'O' + 1) ∧
    (s.jogo_terminado = false →
      (s.jogador_atual = 'X' ↔ s.tabuleiro.conta 'X' = s.tabuleiro.conta 'O')) := by
  induction hs with
  | inicio =>
    refine ⟨fun a c => Or.inl ?_, Or.inl rfl, Or.inl (by decide), fun _ => ?_⟩
    · fin_cases a <;> fin_cases c <;> rfl
    · exact ⟨fun _ => by decide, fun _ => rfl⟩
  | passo _ hstep ih => exact contagem_passo ih.1 ih.2.1 ih.2.2.1 ih.2.2.2 hstep

/-- C19 at a running game with two pieces each, `'X'` to move. -/
theorem C19_contagem_de_pecas_witness :
    Alcancavel estado_antes_vitoria ∧
    estado_antes_vitoria.tabuleiro.conta 'X' = 2 ∧
    estado_antes_vitoria.tabuleiro.conta 'O' = 2 ∧
    (estado_antes_vitoria.jogador_atual = 'X' ↔
      estado_antes_vitoria.tabuleiro.conta 'X' = estado_antes_vitoria.tabuleiro.conta 'O') :=
  ⟨alcancavel_of_execucao execucao_antes_vitoria, by decide, by decide,
   (C19_contagem_de_pecas estado_antes_vitoria
      (alcancavel_of_execucao execucao_antes_vitoria)).2.2.2 rfl⟩

/-! ## Calls with coordinates inside the grid -/

theorem fazer_jogada_no_limite {s : JogoDaVelha} {jogador : Char} {linha coluna : Int}
    (hl : 0 ≤ linha ∧ linha ≤ 2) (hc : 0 ≤ coluna ∧ coluna ≤ 2) :
    fazer_jogada s jogador linha coluna ≠ .error .fora_dos_limites := by
  by_cases hp : predicado_espera s jogador = true
  · obtain ⟨b, s', h⟩ := fazer_jogada_retorna hl hc hp
    rw [h]
    exact fun h => Except.noConfusion h
  · unfold fazer_jogada
    simp [hp]

/-- C17: the code against its comment.  On the full grid of a nine-move game
that `'X'` wins with the last move, `verificar_empate()` returns `true` although
`'X'` has three in a row: the method tests only that no cell is `' '`. -/
theorem C17_empate_com_vitoria :
    Alcancavel estado_cheio_vitoria ∧
    cheio estado_cheio_vitoria.tabuleiro ∧
    tem_trinca estado_cheio_vitoria.tabuleiro 'X' ∧
    verificar_empate estado_cheio_vitoria = true :=
  ⟨alcancavel_of_execucao execucao_cheia_vitoria, by decide, by decide, by decide⟩

/-! ## The coordinates the policies pass -/

theorem jogar_sequencial_em_no_limite (simbolo : Char) :
    ∀ (cs : List (Int × Int)) (s : JogoDaVelha),
      (∀ p ∈ cs, (0 ≤ p.1 ∧ p.1 ≤ 2) ∧ (0 ≤ p.2 ∧ p.2 ≤ 2)) →
      ∀ t ∈ (jogar_sequencial_em simbolo cs s).1,
        (0 ≤ t.linha ∧ t.linha ≤ 2) ∧ (0 ≤ t.coluna ∧ t.coluna ≤ 2) ∧
          t.retorno ≠ .error .fora_dos_limites
  | [], s, _ => by
    intro t ht
    simp [jogar_sequencial_em] at ht
  | (linha, coluna) :: resto, s, hcs => by
    intro t ht
    have hlc := hcs (linha, coluna) (List.mem_cons_self _ _)
    have hresto : ∀ p ∈ resto, (0 ≤ p.1 ∧ p.1 ≤ 2) ∧ (0 ≤ p.2 ∧ p.2 ≤ 2) :=
      fun p hp => hcs p (List.mem_cons_of_mem _ hp)
    have hnf := @fazer_jogada_no_limite s simbolo linha coluna hlc.1 hlc.2
    unfold jogar_sequencial_em at ht
    split at ht
    · rename_i e he
      simp only [List.mem_singleton] at ht
      subst ht
      exact ⟨hlc.1, hlc.2, fun h => hnf (by rw [he]; injection h with h; rw [h])⟩
    · simp only [List.mem_singleton] at ht
      subst ht
      exact ⟨hlc.1, hlc.2, fun h => Except.noConfusion h⟩
    · rename_i s' _
      simp only [List.mem_cons] at ht
      rcases ht with rfl | hmem
      · exact ⟨hlc.1, hlc.2, fun h => Except.noConfusion h⟩
      · exact jogar_sequencial_em_no_limite simbolo resto s' hresto t hmem

theorem jogar_aleatorio_no_limite (simbolo : Char) :
    ∀ (sorteios : List Int) (s : JogoDaVelha), (∀ r ∈ sorteios, 0 ≤ r) →
      ∀ t ∈ (jogar_aleatorio simbolo sorteios s).1,
        (0 ≤ t.linha ∧ t.linha ≤ 2) ∧ (0 ≤ t.coluna ∧ t.coluna ≤ 2) ∧
          t.retorno ≠ .error .fora_dos_limites
  | [], s, _ => by
    intro t ht
    simp [jogar_aleatorio] at ht
  | [_], s, _ => by
    intro t ht
    simp [jogar_aleatorio] at ht
  | r1 :: r2 :: resto, s, hd => by
    intro t ht
    have h1 : 0 ≤ r1 := hd r1 (List.mem_cons_self _ _)
    have h2 : 0 ≤ r2 := hd r2 (List.mem_cons_of_mem _ (List.mem_cons_self _ _))
    have hresto : ∀ r ∈ resto, 0 ≤ r :=
      fun r hr => hd r (List.mem_cons_of_mem _ (List.mem_cons_of_mem _ hr))
    have hl : 0 ≤ Int.tmod r1 3 ∧ Int.tmod r1 3 ≤ 2 :=
      ⟨Int.tmod_nonneg 3 h1, by have := Int.tmod_lt_of_pos r1 (by decide : (0 : Int) < 3); omega⟩
    have hc : 0 ≤ Int.tmod r2 3 ∧ Int.tmod r2 3 ≤ 2 :=
      ⟨Int.tmod_nonneg 3 h2, by have := Int.tmod_lt_of_pos r2 (by decide : (0 : Int) < 3); omega⟩
    have hnf := @fazer_jogada_no_limite s simbolo _ _ hl hc
    unfold jogar_aleatorio at ht
    split at ht
    · simp at ht
    · simp only [] at ht
      split at ht
      · rename_i e he
        simp only [List.mem_singleton] at ht
        subst ht
        exact ⟨hl, hc, fun h => hnf (by rw [he]; injection h with h; rw [h])⟩
      · simp only [List.mem_singleton] at ht
        subst ht
        exact ⟨hl, hc, fun h => Except.noConfusion h⟩
      · rename_i s' _
        simp only [List.mem_cons] at ht
        rcases ht with rfl | hmem
        · exact ⟨hl, hc, fun h => Except.noConfusion h⟩
        · exact jogar_aleatorio_no_limite simbolo resto s' hresto t hmem

theorem varredura_no_limite :
    ∀ p ∈ varredura, (0 ≤ p.1 ∧ p.1 ≤ 2) ∧ (0 ≤ p.2 ∧ p.2 ≤ 2) := by
  decide

/-- C20. For every state, every symbol and every sequence of non-negative
`std::rand()` values, every `(linha, coluna)` that `jogar_sequencial` or
`jogar_aleatorio` passes to `fazer_jogada` has `0 ≤ linha ≤ 2` and
`0 ≤ coluna ≤ 2`, and no such call reaches the out-of-range grid access. -/
theorem C20_politicas_no_limite (s : JogoDaVelha) (simbolo : Char) (sorteios : List Int)
    (hd : ∀ r ∈ sorteios, 0 ≤ r) :
    (∀ t ∈ (jogar_sequencial simbolo s).1,
      (0 ≤ t.linha ∧ t.linha ≤ 2) ∧ (0 ≤ t.coluna ∧ t.coluna ≤ 2) ∧
        t.retorno ≠ .error .fora_dos_limites) ∧
    (∀ t ∈ (jogar_aleatorio simbolo sorteios s).1,
      (0 ≤ t.linha ∧ t.linha ≤ 2) ∧ (0 ≤ t.coluna ∧ t.coluna ≤ 2) ∧
        t.retorno ≠ .error .fora_dos_limites) :=
  ⟨jogar_sequencial_em_no_limite simbolo varredura s varredura_no_limite,
   jogar_aleatorio_no_limite simbolo sorteios s hd⟩

/-- C20 at the first move of `'X'` with the draws 7, 5: the call made is
`fazer_jogada('X', 1, 2)`. -/
theorem C20_politicas_no_limite_witness :
    (∀ r ∈ ([7, 5] : List Int), 0 ≤ r) ∧
    (jogar_aleatorio 'X' [7, 5] novo).1 = [⟨1, 2, .ok true⟩] ∧
    (∀ t ∈ (jogar_aleatorio 'X' [7, 5] novo).1,
      (0 ≤ t.linha ∧ t.linha ≤ 2) ∧ (0 ≤ t.coluna ∧ t.coluna ≤ 2) ∧
        t.retorno ≠ .error .fora_dos_limites) :=
  ⟨by decide, by decide, (C20_politicas_no_limite novo 'X' [7, 5] (by decide)).2⟩
